import Mathlib

/-!
Verification development for the E1.31 (sACN) receiver library
(single source file src/lib/server.js).

The Server component is shallowly embedded as a pure state machine:

* sockets are modelled by explicit fields of the server state (a `bound`
  flag, a `closed` flag, a multiset of joined multicast universes, and
  action logs recording the membership calls issued to the socket
  together with whether the socket was bound at the time);
* the JavaScript object `_lastSequenceNumber` is modelled as an
  insertion-ordered association list with JS object semantics
  (update-in-place of the first matching key, append of fresh keys,
  delete removes the key);
* the external collaborator module (required as e131: Packet parsing,
  the discard predicate, multicast group resolution, DEFAULT_PORT) is
  out of scope of the core; packets are records carrying the accessor
  results (universe, sequence number, validation outcome) and the
  discard predicate is an abstract Boolean parameter of the receive
  path, exactly as the code only ever calls it through the packet.
-/

namespace E131

/-! ## JS-object-like association map (models _lastSequenceNumber) -/

/-- Lookup of a key in the association map: first binding wins
(JS objects have unique keys; maps built by set and del below do too). -/
def getKey (m : List (Nat × Nat)) (k : Nat) : Option Nat :=
  match m with
  | [] => none
  | p :: rest => if p.1 = k then some p.2 else getKey rest k

/-- Assignment m[k] = v on a JS object: overwrite the first binding of k
in place, or append a fresh binding at the end. -/
def setKey (m : List (Nat × Nat)) (k v : Nat) : List (Nat × Nat) :=
  match m with
  | [] => [(k, v)]
  | p :: rest => if p.1 = k then (k, v) :: rest else p :: setKey rest k v

/-- The JS delete m[k]: remove every binding of k. -/
def delKey (m : List (Nat × Nat)) (k : Nat) : List (Nat × Nat) :=
  m.filter (fun p => p.1 ≠ k)

/-- Array.prototype.splice(indexOf u, 1): remove the first occurrence. -/
def removeFirst (l : List Nat) (u : Nat) : List Nat :=
  match l with
  | [] => []
  | x :: xs => if x = u then xs else x :: removeFirst xs u

/-! ## Packets and events -/

/-- The observable face of the external Packet abstraction: the three
accessors the server calls (getUniverse, getSequenceNumber, validate).
universeId is the result of getUniverse (universe is a reserved word
here); validationResult 0 models ERR_NONE. -/
structure Packet where
  universeId : Nat
  sequenceNumber : Nat
  validationResult : Nat
deriving DecidableEq

/-- The packet-related events the server can emit from its receive path. -/
inductive Event where
  | packet (p : Packet)
  | packetOutOfOrder (p : Packet)
  | packetError (p : Packet) (validationResult : Nat)
deriving DecidableEq

/-! ## Server state -/

/-- State of one Server instance.  universes mirrors this.universes (a JS
array), lastSeq mirrors this._lastSequenceNumber, objectForm remembers
which constructor branch ran (the two branches install different bind
callbacks), bound and closed describe the socket, members is the multiset
of universes currently joined (addMembership minus dropMembership),
joinLog records each addMembership call with the boundness of the socket
at the moment of the call, dropLog records each dropMembership call. -/
structure ServerState where
  universes : List Nat
  lastSeq : List (Nat × Nat)
  port : Nat
  objectForm : Bool
  bound : Bool
  closed : Bool
  members : List Nat
  joinLog : List (Nat × Bool)
  dropLog : List Nat
deriving DecidableEq

/-- One socket addMembership call for universe u: joins the group and is
recorded in the log together with the boundness of the socket. -/
def joinStep (s : ServerState) (u : Nat) : ServerState :=
  { s with members := s.members ++ [u], joinLog := s.joinLog ++ [(u, s.bound)] }

/-! ## Constructor -/

/-- The universes option of a configuration object: absent, a single
(non-array) value, or an array. -/
inductive ConfigUniverses where
  | undef
  | single (n : Nat)
  | list (l : List Nat)
deriving DecidableEq

/-- A configuration object, restricted to the fields the claims need.
port is an Option so that an absent field and the JS-falsy 0 can both
fall through the default chain, as in config.port or port or DEFAULT_PORT. -/
structure Config where
  universes : ConfigUniverses
  port : Option Nat
deriving DecidableEq

/-- The first constructor argument: undefined, a single number, an array
of universes, or a configuration object. -/
inductive ServerArg where
  | undef
  | num (n : Nat)
  | arr (l : List Nat)
  | obj (c : Config)
deriving DecidableEq

/-- JS truthiness of the default chain a or d for numbers:
undefined and 0 are falsy. -/
def jsOr (v : Option Nat) (d : Nat) : Nat :=
  match v with
  | none => d
  | some n => if n = 0 then d else n

/-- The protocol default port (e131.DEFAULT_PORT, the sACN registered port). -/
def DEFAULT_PORT : Nat := 5568

/-- Lines 36-39 of server.js: if config.universes is present and not an
array it is wrapped into a one-element array (mutating the config). -/
def normalizeConfigUniverses : ConfigUniverses → ConfigUniverses
  | .single n => .list [n]
  | u => u

/-- The config value the object branch works with: the object itself when
an object was passed; an array has no universes or port property, so it
behaves as an empty config; undefined becomes the empty object. -/
def configOf : ServerArg → Config
  | .obj c => c
  | _ => { universes := .undef, port := none }

/-- Does the constructor take the configuration-object branch?  The test
in line 35 is (universes instanceof Object or universes undefined): true
for objects, for ARRAYS (a JS array is an instance of Object), and for an
omitted argument; only a plain number reaches the positional branch. -/
def takesObjectBranch : ServerArg → Bool
  | .num _ => false
  | _ => true

/-- The tracked list this.universes computed by the object branch:
config.universes (after normalization) or the empty array (an empty
array is truthy in JS, so an explicitly supplied empty list survives). -/
def objectBranchUniverses (c : Config) : List Nat :=
  match normalizeConfigUniverses c.universes with
  | .list l => l
  | _ => []

/-- The Server constructor, lines 29-73 of server.js, up to the point
where the synchronous part has finished: the socket has been created and
bind has been requested but has not completed, _lastSequenceNumber is the
empty object, no membership has been added.  The asynchronous bind
callback is modelled separately by bindComplete. -/
def constructServer (arg : ServerArg) (port : Option Nat) : ServerState :=
  if takesObjectBranch arg then
    let config := configOf arg
    { universes := objectBranchUniverses config,
      lastSeq := [],
      port := jsOr config.port (jsOr port DEFAULT_PORT),
      objectForm := true, bound := false, closed := false,
      members := [], joinLog := [], dropLog := [] }
  else
    match arg with
    | .num n =>
        { universes := [n],
          lastSeq := [],
          port := jsOr port DEFAULT_PORT,
          objectForm := false, bound := false, closed := false,
          members := [], joinLog := [], dropLog := [] }
    | _ =>
        { universes := [],
          lastSeq := [],
          port := jsOr port DEFAULT_PORT,
          objectForm := false, bound := false, closed := false,
          members := [], joinLog := [], dropLog := [] }

/-- The body of the object-form bind callback, lines 51-57: for each
universe of this.universes, set _lastSequenceNumber[u] = 0 and then
addMembership for its multicast group. -/
def bindFoldObj (s : ServerState) (l : List Nat) : ServerState :=
  l.foldl (fun st u => joinStep { st with lastSeq := setKey st.lastSeq u 0 } u) s

/-- The body of the positional-form bind callback, lines 66-69: for each
universe of this.universes, addMembership only — the sequence state is
NOT initialized on this path. -/
def bindFoldPos (s : ServerState) (l : List Nat) : ServerState :=
  l.foldl (fun st u => joinStep st u) s

/-- Completion of the asynchronous socket bind: the socket becomes bound
and the branch-specific callback installed by the constructor runs over
the current this.universes. -/
def bindComplete (s : ServerState) : ServerState :=
  if s.objectForm then bindFoldObj { s with bound := true } s.universes
  else bindFoldPos { s with bound := true } s.universes

/-! ## Receive path, add, drop, close -/

/-- The onMessage handler, lines 84-97 of server.js, for one datagram
already parsed into a packet.  discard is the external predicate
packet.discard(lastSeen), given the packet sequence number and the
tracked last-seen value (undefined when the universe has no state).
Note that line 96 assigns _lastSequenceNumber unconditionally, in both
the out-of-order and the in-order branch. -/
def onMessage (discard : Nat → Option Nat → Bool) (s : ServerState) (p : Packet) :
    ServerState × List Event :=
  if p.validationResult ≠ 0 then
    (s, [Event.packetError p p.validationResult])
  else
    let ev := if discard p.sequenceNumber (getKey s.lastSeq p.universeId) then
        Event.packetOutOfOrder p
      else Event.packet p
    ({ s with lastSeq := setKey s.lastSeq p.universeId p.sequenceNumber }, [ev])

/-- Modelled from the spec: delivery of a datagram to the server.  The
underlying runtime behaviour of the missing socket layer is that a closed
UDP socket delivers no datagrams, so the message handler does not run
after close; on an open socket the handler runs as in onMessage. -/
def deliver (discard : Nat → Option Nat → Bool) (s : ServerState) (p : Packet) :
    ServerState × List Event :=
  if s.closed then (s, []) else onMessage discard s p

/-- One iteration of the addUniverses forEach, lines 106-111: skip a
universe already in this.universes, otherwise push it, initialize its
sequence state to 0, and addMembership its multicast group. -/
def addOne (s : ServerState) (u : Nat) : ServerState :=
  if u ∈ s.universes then s
  else joinStep
    { s with universes := s.universes ++ [u], lastSeq := setKey s.lastSeq u 0 } u

/-- Server.prototype.addUniverses, lines 105-112. -/
def addUniverses (s : ServerState) (us : List Nat) : ServerState :=
  us.foldl addOne s

/-- One iteration of the dropUniverses forEach, lines 115-123: skip a
universe not in this.universes, otherwise splice out its first
occurrence, delete its sequence state, and dropMembership its group. -/
def dropOne (s : ServerState) (u : Nat) : ServerState :=
  if u ∈ s.universes then
    { s with universes := removeFirst s.universes u,
             lastSeq := delKey s.lastSeq u,
             members := removeFirst s.members u,
             dropLog := s.dropLog ++ [u] }
  else s

/-- Server.prototype.dropUniverses, lines 114-124. -/
def dropUniverses (s : ServerState) (us : List Nat) : ServerState :=
  us.foldl dropOne s

/-- Server.prototype.close, lines 101-103: closes the underlying socket. -/
def closeServer (s : ServerState) : ServerState :=
  { s with closed := true }

/-! ## Reachability -/

/-- A later addUniverses/dropUniverses call, for iterating operation
sequences. -/
inductive Op where
  | add (us : List Nat)
  | drop (us : List Nat)
deriving DecidableEq

/-- Apply one public mutating operation. -/
def applyOp (s : ServerState) : Op → ServerState
  | .add us => addUniverses s us
  | .drop us => dropUniverses s us

/-- Apply a sequence of public mutating operations in order. -/
def applyOps (s : ServerState) (ops : List Op) : ServerState :=
  ops.foldl applyOp s

/-- One transition of a live server: bind completion, a public call, or a
datagram delivery. -/
inductive Step (discard : Nat → Option Nat → Bool) : ServerState → ServerState → Prop where
  | bind (s : ServerState) : Step discard s (bindComplete s)
  | add (s : ServerState) (us : List Nat) : Step discard s (addUniverses s us)
  | drop (s : ServerState) (us : List Nat) : Step discard s (dropUniverses s us)
  | recv (s : ServerState) (p : Packet) : Step discard s (deliver discard s p).1
  | close (s : ServerState) : Step discard s (closeServer s)

/-- The states a Server can reach: any constructed state, closed under
transitions. -/
inductive Reachable (discard : Nat → Option Nat → Bool) : ServerState → Prop where
  | construct (arg : ServerArg) (port : Option Nat) :
      Reachable discard (constructServer arg port)
  | step {s s' : ServerState} :
      Reachable discard s → Step discard s s' → Reachable discard s'

/-- A concrete specimen of the external discard predicate, with the
typical sACN semantics the spec describes: stale when the backward
difference from the last-seen value (mod 256) is less than 20; an absent
last-seen value (a JS undefined comparison) never discards. -/
def sampleDiscard (seqN : Nat) (lastSeen : Option Nat) : Bool :=
  match lastSeen with
  | none => false
  | some l => (l + 256 - seqN % 256) % 256 < 20

/-- A concrete live server state tracking universe 1 with last-seen
sequence number 10, as produced by an object-form construction with
universes [1] followed by bind completion and one accepted packet. -/
def sampleState : ServerState :=
  { universes := [1], lastSeq := [(1, 10)], port := 5568, objectForm := true,
    bound := true, closed := false, members := [1], joinLog := [(1, true)],
    dropLog := [] }

/-- The membership-to-sequence-state invariant of the spec, together with
the auxiliary facts that make it inductive over add and drop calls: the
joined multiset coincides with the tracked list, the tracked list has no
duplicates, and a universe has sequence state exactly when tracked. -/
def Inv (s : ServerState) : Prop :=
  s.members = s.universes ∧ s.universes.Nodup ∧
  ∀ u : Nat, (getKey s.lastSeq u).isSome ↔ u ∈ s.universes

/-! ## Heap-level model of array aliasing in the constructor

The configuration-object branch of the constructor (lines 35-41) never
copies the caller data: config.universes is reassigned in place when it
is a single value, and this.universes is the very array object the caller
supplied when it is an array.  To state this, arrays live in an explicit
store of array cells addressed by references, and the constructor
fragment and the add/drop loops are re-expressed as store transformers
operating through references — the same source lines as above, with the
JS reference semantics made explicit. -/

/-- The array heap: cell r holds one JS array of universe numbers. -/
abbrev Store : Type := List (List Nat)

/-- Dereference an array cell. -/
def heapGet (st : Store) (r : Nat) : List Nat :=
  st.getD r []

/-- Overwrite an array cell in place. -/
def heapSet (st : Store) (r : Nat) (v : List Nat) : Store :=
  st.set r v

/-- The universes property of the caller configuration object: absent, a
single number, or a reference to an array living in the store. -/
inductive UniversesField where
  | undef
  | num (n : Nat)
  | arrayRef (r : Nat)
deriving DecidableEq

/-- Lines 36-41 at heap level.  Input: the store and the universes
property of the caller config.  Output: the store after the call, the
universes property of the caller config object AFTER the call (the
constructor assigns config.universes when wrapping a single value), and
the reference this.universes holds.  A single value allocates a fresh
one-element array and stores its reference back into the caller config;
an array is taken over by reference without copying; an absent property
allocates a fresh empty array (config.universes or []). -/
def constructUniversesAlias (st : Store) (cfgU : UniversesField) :
    Store × UniversesField × Nat :=
  match cfgU with
  | .num n => (st ++ [[n]], .arrayRef st.length, st.length)
  | .arrayRef r => (st, .arrayRef r, r)
  | .undef => (st ++ [[]], .undef, st.length)

/-- One addUniverses iteration (lines 106-111) restricted to its effect
on the this.universes array, acting through the reference. -/
def addOneAlias (st : Store) (r u : Nat) : Store :=
  if u ∈ heapGet st r then st else heapSet st r (heapGet st r ++ [u])

/-- addUniverses at heap level: pushes onto the referenced array. -/
def addUniversesAlias (st : Store) (r : Nat) (us : List Nat) : Store :=
  us.foldl (fun acc u => addOneAlias acc r u) st

/-- One dropUniverses iteration (lines 115-123) restricted to its effect
on the this.universes array, acting through the reference. -/
def dropOneAlias (st : Store) (r u : Nat) : Store :=
  if u ∈ heapGet st r then heapSet st r (removeFirst (heapGet st r) u) else st

/-- dropUniverses at heap level: splices the referenced array. -/
def dropUniversesAlias (st : Store) (r : Nat) (us : List Nat) : Store :=
  us.foldl (fun acc u => dropOneAlias acc r u) st

/-! ## Lemmas about the association map and removeFirst -/

theorem getKey_setKey (m : List (Nat × Nat)) (k v k' : Nat) :
    getKey (setKey m k v) k' = if k = k' then some v else getKey m k' := by
  induction m with
  | nil => simp [getKey, setKey]
  | cons p rest ih =>
      simp only [setKey]
      by_cases h : p.1 = k
      · rw [if_pos h]
        by_cases h' : k = k'
        · simp [getKey, h']
        · have hp : ¬p.1 = k' := fun hp => h' (by rw [← h, hp])
          simp [getKey, h', hp]
      · rw [if_neg h]
        by_cases h' : p.1 = k'
        · have hk : ¬k = k' := fun he => h (by rw [h', he])
          simp [getKey, h', hk]
        · simp [getKey, h', ih]

theorem delKey_cons (p : Nat × Nat) (rest : List (Nat × Nat)) (k : Nat) :
    delKey (p :: rest) k = if p.1 = k then delKey rest k else p :: delKey rest k := by
  simp only [delKey, List.filter_cons]
  by_cases h : p.1 = k <;> simp [h]

theorem getKey_delKey (m : List (Nat × Nat)) (k k' : Nat) :
    getKey (delKey m k) k' = if k = k' then none else getKey m k' := by
  induction m with
  | nil => simp [getKey, delKey]
  | cons p rest ih =>
      rw [delKey_cons]
      by_cases h : p.1 = k
      · rw [if_pos h, ih]
        by_cases h' : k = k'
        · simp [h']
        · have hp : ¬p.1 = k' := fun hp => h' (by rw [← h, hp])
          simp [getKey, h', hp]
      · rw [if_neg h]
        by_cases h' : p.1 = k'
        · have hk : ¬k = k' := fun he => h (by rw [h', he])
          simp [getKey, h', hk]
        · simp [getKey, h', ih]

theorem mem_of_mem_removeFirst {l : List Nat} {u v : Nat}
    (h : v ∈ removeFirst l u) : v ∈ l := by
  induction l with
  | nil => simp [removeFirst] at h
  | cons x xs ih =>
      by_cases hx : x = u
      · simp only [removeFirst, if_pos hx] at h
        simp [h]
      · simp only [removeFirst, if_neg hx, List.mem_cons] at h
        rcases h with h | h
        · simp [h]
        · simp [ih h]

theorem mem_removeFirst_of_ne {l : List Nat} {u v : Nat} (hvu : v ≠ u) :
    v ∈ removeFirst l u ↔ v ∈ l := by
  induction l with
  | nil => simp [removeFirst]
  | cons x xs ih =>
      by_cases hx : x = u
      · subst hx
        simp only [removeFirst, if_pos rfl, List.mem_cons]
        constructor
        · exact fun h => Or.inr h
        · rintro (h | h)
          · exact absurd h hvu
          · exact h
      · simp only [removeFirst, if_neg hx, List.mem_cons, ih]

theorem not_mem_removeFirst {l : List Nat} {u : Nat} (h : l.Nodup) :
    u ∉ removeFirst l u := by
  induction l with
  | nil => simp [removeFirst]
  | cons x xs ih =>
      rcases List.nodup_cons.mp h with ⟨hx, hxs⟩
      by_cases hxu : x = u
      · subst hxu
        simpa [removeFirst] using hx
      · simp only [removeFirst, if_neg hxu, List.mem_cons, not_or]
        exact ⟨fun h' => hxu h'.symm, ih hxs⟩

theorem nodup_removeFirst {l : List Nat} {u : Nat} (h : l.Nodup) :
    (removeFirst l u).Nodup := by
  induction l with
  | nil => simp [removeFirst]
  | cons x xs ih =>
      rcases List.nodup_cons.mp h with ⟨hx, hxs⟩
      by_cases hxu : x = u
      · simpa [removeFirst, hxu] using hxs
      · simp only [removeFirst, if_neg hxu]
        exact List.nodup_cons.mpr ⟨fun hmem => hx (mem_of_mem_removeFirst hmem), ih hxs⟩

/-! ## Unfolding lemmas for the add, drop and bind folds -/

theorem addOne_mem (s : ServerState) (u : Nat) (h : u ∈ s.universes) :
    addOne s u = s := by
  simp [addOne, h]

theorem addOne_not_mem (s : ServerState) (u : Nat) (h : u ∉ s.universes) :
    addOne s u = { s with universes := s.universes ++ [u],
                          lastSeq := setKey s.lastSeq u 0,
                          members := s.members ++ [u],
                          joinLog := s.joinLog ++ [(u, s.bound)] } := by
  simp [addOne, h, joinStep]

theorem bindFoldObj_universes (l : List Nat) (s : ServerState) :
    (bindFoldObj s l).universes = s.universes := by
  induction l generalizing s with
  | nil => rfl
  | cons x xs ih => simp [bindFoldObj, joinStep] at ih ⊢; exact ih _

theorem bindFoldObj_bound (l : List Nat) (s : ServerState) :
    (bindFoldObj s l).bound = s.bound := by
  induction l generalizing s with
  | nil => rfl
  | cons x xs ih => simp [bindFoldObj, joinStep] at ih ⊢; exact ih _

theorem bindFoldObj_members (l : List Nat) (s : ServerState) :
    (bindFoldObj s l).members = s.members ++ l := by
  induction l generalizing s with
  | nil => simp [bindFoldObj]
  | cons x xs ih =>
      simp only [bindFoldObj, List.foldl_cons] at ih ⊢
      rw [ih]
      simp [joinStep]

theorem bindFoldObj_joinLog (l : List Nat) (s : ServerState) :
    (bindFoldObj s l).joinLog = s.joinLog ++ l.map (fun v => (v, s.bound)) := by
  induction l generalizing s with
  | nil => simp [bindFoldObj]
  | cons x xs ih =>
      simp only [bindFoldObj, List.foldl_cons] at ih ⊢
      rw [ih]
      simp [joinStep]

theorem bindFoldObj_getKey (l : List Nat) (s : ServerState) (u : Nat) :
    getKey (bindFoldObj s l).lastSeq u
      = if u ∈ l then some 0 else getKey s.lastSeq u := by
  induction l generalizing s with
  | nil => simp [bindFoldObj]
  | cons x xs ih =>
      simp only [bindFoldObj, List.foldl_cons] at ih ⊢
      rw [ih]
      by_cases hxs : u ∈ xs
      · simp [hxs]
      · by_cases hx : u = x
        · subst hx
          simp [joinStep, hxs, getKey_setKey]
        · have hx2 : ¬x = u := fun he => hx he.symm
          simp [joinStep, hxs, hx, hx2, getKey_setKey]

theorem bindFoldPos_lastSeq (l : List Nat) (s : ServerState) :
    (bindFoldPos s l).lastSeq = s.lastSeq := by
  induction l generalizing s with
  | nil => rfl
  | cons x xs ih => simp [bindFoldPos, joinStep] at ih ⊢; exact ih _

theorem bindFoldPos_members (l : List Nat) (s : ServerState) :
    (bindFoldPos s l).members = s.members ++ l := by
  induction l generalizing s with
  | nil => simp [bindFoldPos]
  | cons x xs ih =>
      simp only [bindFoldPos, List.foldl_cons] at ih ⊢
      rw [ih]
      simp [joinStep]

/-! ## Claim C1 (stale packet: event and sequence state) -/

/-- Claim C1, the claim as frozen, refuted at a concrete input: in the
state tracking universe 1 at last-seen 10, a valid packet for universe 1
with sequence number 9 is classified stale by the discard predicate and
does emit packet-out-of-order, but the tracked last-seen value is NOT
left unchanged — line 96 updates it to 9 unconditionally. -/
theorem C1_counterexample :
    sampleDiscard 9 (getKey sampleState.lastSeq 1) = true ∧
    Packet.validationResult ⟨1, 9, 0⟩ = 0 ∧
    (onMessage sampleDiscard sampleState ⟨1, 9, 0⟩).2
      = [Event.packetOutOfOrder ⟨1, 9, 0⟩] ∧
    ¬(onMessage sampleDiscard sampleState ⟨1, 9, 0⟩).1.lastSeq = sampleState.lastSeq ∧
    getKey (onMessage sampleDiscard sampleState ⟨1, 9, 0⟩).1.lastSeq 1 = some 9 := by
  decide

/-- Claim C1, amended: processing a valid datagram whose sequence number
the discard predicate classifies as stale emits packet-out-of-order, and
the tracked last-seen value for that universe is then overwritten with
the stale packet sequence number (the assignment on line 96 runs
unconditionally after either event). -/
theorem C1_amended (discard : Nat → Option Nat → Bool) (s : ServerState) (p : Packet)
    (hv : p.validationResult = 0)
    (hd : discard p.sequenceNumber (getKey s.lastSeq p.universeId) = true) :
    (onMessage discard s p).2 = [Event.packetOutOfOrder p] ∧
    getKey (onMessage discard s p).1.lastSeq p.universeId = some p.sequenceNumber := by
  simp [onMessage, hv, hd, getKey_setKey]

/-- Witness for C1_amended at the concrete stale packet of the
counterexample. -/
theorem C1_amended_witness :
    (onMessage sampleDiscard sampleState ⟨1, 9, 0⟩).2
      = [Event.packetOutOfOrder ⟨1, 9, 0⟩] ∧
    getKey (onMessage sampleDiscard sampleState ⟨1, 9, 0⟩).1.lastSeq 1 = some 9 :=
  C1_amended sampleDiscard sampleState ⟨1, 9, 0⟩ (by decide) (by decide)

/-! ## Claim C6 (invalid packet: packet-error, state untouched) -/

/-- Claim C6: a datagram failing packet validation makes the handler emit
exactly packet-error with the packet and the validation failure reason,
and the whole server state — in particular the entire tracked sequence
map — is returned unchanged. -/
theorem C6_invalid_packet (discard : Nat → Option Nat → Bool) (s : ServerState)
    (p : Packet) (hv : p.validationResult ≠ 0) :
    onMessage discard s p = (s, [Event.packetError p p.validationResult]) := by
  simp [onMessage, hv]

/-- Witness for C6_invalid_packet: a packet with validation outcome 3. -/
theorem C6_invalid_packet_witness :
    onMessage sampleDiscard sampleState ⟨1, 9, 3⟩
      = (sampleState, [Event.packetError ⟨1, 9, 3⟩ 3]) :=
  C6_invalid_packet sampleDiscard sampleState ⟨1, 9, 3⟩ (by decide)

/-! ## Claim C7 (valid packet: exactly one event; accept updates state) -/

/-- Claim C7: on a valid datagram exactly one of packet and
packet-out-of-order is emitted (the event list is one of the two
singletons, and never the other at the same time), and when the discard
predicate accepts, the event is packet and the tracked last-seen value
becomes the packet sequence number. -/
theorem C7_valid_packet (discard : Nat → Option Nat → Bool) (s : ServerState)
    (p : Packet) (hv : p.validationResult = 0) :
    (discard p.sequenceNumber (getKey s.lastSeq p.universeId) = true →
      (onMessage discard s p).2 = [Event.packetOutOfOrder p] ∧
      (onMessage discard s p).2 ≠ [Event.packet p]) ∧
    (discard p.sequenceNumber (getKey s.lastSeq p.universeId) = false →
      (onMessage discard s p).2 = [Event.packet p] ∧
      (onMessage discard s p).2 ≠ [Event.packetOutOfOrder p] ∧
      getKey (onMessage discard s p).1.lastSeq p.universeId = some p.sequenceNumber) := by
  constructor
  · intro hd
    simp [onMessage, hv, hd]
  · intro hd
    simp [onMessage, hv, hd, getKey_setKey]

/-- Witness for C7_valid_packet: the in-order packet with sequence number
11 against last-seen 10 is accepted, reported once as packet, and the
tracker advances to 11. -/
theorem C7_valid_packet_witness :
    (onMessage sampleDiscard sampleState ⟨1, 11, 0⟩).2 = [Event.packet ⟨1, 11, 0⟩] ∧
    (onMessage sampleDiscard sampleState ⟨1, 11, 0⟩).2
      ≠ [Event.packetOutOfOrder ⟨1, 11, 0⟩] ∧
    getKey (onMessage sampleDiscard sampleState ⟨1, 11, 0⟩).1.lastSeq 1 = some 11 :=
  (C7_valid_packet sampleDiscard sampleState ⟨1, 11, 0⟩ (by decide)).2 (by decide)

/-! ## Claim C3 (constructor calling conventions) -/

/-- Claim C3, evaluated at the inputs where the code contradicts it: a
positional call with the array of universes 2 and 3 is captured by the
configuration-object branch (a JS array is an instance of Object), whose
universes property is absent on an array, so the tracked set comes out
empty instead of the list that was passed; and a call with the first
argument omitted is also captured by the configuration-object branch, so
the tracked set comes out empty instead of the documented positional
default of universe 1 (the wrap-and-default code of the positional
branch, lines 60-63, is unreachable for these inputs).  The second
positional argument still lands on the port in both cases. -/
theorem C3_eval :
    takesObjectBranch (.arr [2, 3]) = true ∧
    (constructServer (.arr [2, 3]) (some 5568)).universes = [] ∧
    (constructServer (.arr [2, 3]) (some 5569)).port = 5569 ∧
    takesObjectBranch .undef = true ∧
    (constructServer .undef none).universes = [] ∧
    (constructServer (.num 4) none).universes = [4] ∧
    (constructServer (.num 4) none).port = DEFAULT_PORT ∧
    (constructServer (.obj ⟨.single 9, none⟩) none).universes = [9] ∧
    (constructServer (.obj ⟨.undef, some 7⟩) none).universes = [] ∧
    (constructServer (.obj ⟨.undef, some 7⟩) none).port = 7 := by
  decide

/-! ## Claim C9 (behaviour after close) -/

/-- Claim C9, the claim as frozen, refuted at a concrete input: after
close, a call to addUniverses with universe 2 is NOT a no-op — it still
appends 2 to the tracked list and creates its sequence state (and line
110 then attempts addMembership on the closed socket); nothing in
addUniverses or dropUniverses consults the socket lifecycle. -/
theorem C9_counterexample :
    (closeServer (constructServer (.obj ⟨.undef, none⟩) none)).closed = true ∧
    (closeServer (constructServer (.obj ⟨.undef, none⟩) none)).universes = [] ∧
    (addUniverses (closeServer (constructServer (.obj ⟨.undef, none⟩) none)) [2]).universes
      = [2] ∧
    getKey (addUniverses (closeServer
      (constructServer (.obj ⟨.undef, none⟩) none)) [2]).lastSeq 2 = some 0 := by
  decide

theorem length_removeFirst {l : List Nat} {u : Nat} (h : u ∈ l) :
    (removeFirst l u).length + 1 = l.length := by
  induction l with
  | nil => simp at h
  | cons x xs ih =>
      by_cases hx : x = u
      · simp [removeFirst, hx]
      · have h' : u ∈ xs := by
          rcases List.mem_cons.mp h with he | h'
          · exact absurd he.symm hx
          · exact h'
        simp [removeFirst, hx, ih h']

/-- Claim C9, amended: after close, a datagram delivery attempt produces
no events and leaves the state unchanged (the closed socket no longer
delivers to the handler), but addUniverses and dropUniverses are NOT
no-ops.  An addUniverses call for an untracked universe still appends it
to the tracked list, initializes its sequence state to 0, and issues its
addMembership call against the closed socket; a dropUniverses call for a
tracked universe still shrinks the tracked list, deletes that universe's
sequence state, and issues its dropMembership call against the closed
socket. -/
theorem C9_amended (discard : Nat → Option Nat → Bool) (s : ServerState)
    (p : Packet) (u v : Nat) (hc : s.closed = true)
    (hu : u ∉ s.universes) (hv : v ∈ s.universes) :
    deliver discard s p = (s, []) ∧
    (addUniverses s [u]).universes = s.universes ++ [u] ∧
    getKey (addUniverses s [u]).lastSeq u = some 0 ∧
    (addUniverses s [u]).joinLog = s.joinLog ++ [(u, s.bound)] ∧
    (dropUniverses s [v]).universes.length + 1 = s.universes.length ∧
    getKey (dropUniverses s [v]).lastSeq v = none ∧
    (dropUniverses s [v]).dropLog = s.dropLog ++ [v] := by
  have hadd : addUniverses s [u]
      = { s with universes := s.universes ++ [u],
                 lastSeq := setKey s.lastSeq u 0,
                 members := s.members ++ [u],
                 joinLog := s.joinLog ++ [(u, s.bound)] } := by
    rw [show addUniverses s [u] = addOne s u from rfl, addOne_not_mem s u hu]
  have hdrop : dropUniverses s [v]
      = { s with universes := removeFirst s.universes v,
                 lastSeq := delKey s.lastSeq v,
                 members := removeFirst s.members v,
                 dropLog := s.dropLog ++ [v] } := by
    simp [dropUniverses, dropOne, hv]
  rw [hadd, hdrop]
  refine ⟨by simp [deliver, hc], rfl, by simp [getKey_setKey], rfl,
    length_removeFirst hv, by simp [getKey_delKey], rfl⟩

/-- Witness for C9_amended on the closed sample server tracking universe
1: delivery is silent, but adding untracked universe 2 and dropping
tracked universe 1 still mutate the state and issue membership calls. -/
theorem C9_amended_witness :
    deliver sampleDiscard (closeServer sampleState) ⟨1, 11, 0⟩
      = (closeServer sampleState, []) ∧
    (addUniverses (closeServer sampleState) [2]).universes
      = (closeServer sampleState).universes ++ [2] ∧
    getKey (addUniverses (closeServer sampleState) [2]).lastSeq 2 = some 0 ∧
    (addUniverses (closeServer sampleState) [2]).joinLog
      = (closeServer sampleState).joinLog ++ [(2, (closeServer sampleState).bound)] ∧
    (dropUniverses (closeServer sampleState) [1]).universes.length + 1
      = (closeServer sampleState).universes.length ∧
    getKey (dropUniverses (closeServer sampleState) [1]).lastSeq 1 = none ∧
    (dropUniverses (closeServer sampleState) [1]).dropLog
      = (closeServer sampleState).dropLog ++ [1] :=
  C9_amended sampleDiscard (closeServer sampleState) ⟨1, 11, 0⟩ 2 1
    (by decide) (by decide) (by decide)

/-! ## Claim C8 (addUniverses before bind completion) -/

/-- Claim C8, the claim as frozen, refuted at a concrete input: on an
object-form server constructed with no universes, addUniverses([3])
before bind completion issues its addMembership immediately on the
not-yet-bound socket (join log entry with boundness false) instead of
deferring it, and when bind completes the constructor callback joins
every tracked universe again, so universe 3 ends up joined twice — while
the same call made after bind completion joins it exactly once.  The end
state is therefore not as if addUniverses had been called after bind. -/
theorem C8_counterexample :
    (bindComplete (addUniverses (constructServer (.obj ⟨.undef, none⟩) none) [3])).joinLog
      = [(3, false), (3, true)] ∧
    (addUniverses (bindComplete (constructServer (.obj ⟨.undef, none⟩) none)) [3]).joinLog
      = [(3, true)] ∧
    (bindComplete (addUniverses (constructServer (.obj ⟨.undef, none⟩) none) [3])).members
      = [3, 3] ∧
    (addUniverses (bindComplete (constructServer (.obj ⟨.undef, none⟩) none)) [3]).members
      = [3] := by
  decide

/-- Claim C8, amended: a call to addUniverses made before bind completion
does not lose the universes — they become tracked with sequence state 0
and are (re)joined when bind completes — but the join is not deferred:
addUniverses issues addMembership immediately on the not-yet-bound
socket, and the object-form bind callback then joins every tracked
universe again, so a universe added before bind completion is joined a
second time rather than exactly as if addUniverses had been called after
bind. -/
theorem C8_amended (L : List Nat) (cport aport : Option Nat) (u : Nat) (hu : u ∉ L) :
    (bindComplete (addUniverses
        (constructServer (.obj ⟨.list L, cport⟩) aport) [u])).universes = L ++ [u] ∧
    getKey (bindComplete (addUniverses
        (constructServer (.obj ⟨.list L, cport⟩) aport) [u])).lastSeq u = some 0 ∧
    (bindComplete (addUniverses
        (constructServer (.obj ⟨.list L, cport⟩) aport) [u])).joinLog
      = (u, false) :: (L ++ [u]).map (fun v => (v, true)) := by
  have hs0 : constructServer (.obj ⟨.list L, cport⟩) aport
      = { universes := L, lastSeq := [],
          port := jsOr cport (jsOr aport DEFAULT_PORT),
          objectForm := true, bound := false, closed := false,
          members := [], joinLog := [], dropLog := [] } := by
    simp [constructServer, takesObjectBranch, configOf, objectBranchUniverses,
      normalizeConfigUniverses]
  rw [hs0]
  rw [show addUniverses
      { universes := L, lastSeq := [],
        port := jsOr cport (jsOr aport DEFAULT_PORT),
        objectForm := true, bound := false, closed := false,
        members := [], joinLog := [], dropLog := [] } [u]
    = addOne
      { universes := L, lastSeq := [],
        port := jsOr cport (jsOr aport DEFAULT_PORT),
        objectForm := true, bound := false, closed := false,
        members := [], joinLog := [], dropLog := [] } u from rfl]
  rw [addOne_not_mem _ u hu]
  simp [bindComplete, bindFoldObj_universes, bindFoldObj_getKey, bindFoldObj_joinLog]

/-- Witness for C8_amended: adding universe 3 to a fresh empty server
before bind completes. -/
theorem C8_amended_witness :
    (bindComplete (addUniverses
        (constructServer (.obj ⟨.list [], none⟩) none) [3])).universes = [] ++ [3] ∧
    getKey (bindComplete (addUniverses
        (constructServer (.obj ⟨.list [], none⟩) none) [3])).lastSeq 3 = some 0 ∧
    (bindComplete (addUniverses
        (constructServer (.obj ⟨.list [], none⟩) none) [3])).joinLog
      = (3, false) :: ([] ++ [3]).map (fun v => (v, true)) :=
  C8_amended [] none none 3 (by decide)

/-! ## Claim C4 (addUniverses adds fresh universes, leaves tracked ones alone) -/

theorem addUniverses_mem (s : ServerState) (us : List Nat) (u : Nat) :
    u ∈ (addUniverses s us).universes ↔ u ∈ s.universes ∨ u ∈ us := by
  induction us generalizing s with
  | nil => simp [addUniverses]
  | cons x xs ih =>
      simp only [addUniverses, List.foldl_cons] at ih ⊢
      rw [ih]
      by_cases hx : x ∈ s.universes
      · rw [addOne_mem s x hx]
        constructor
        · rintro (h | h)
          · exact Or.inl h
          · exact Or.inr (List.mem_cons_of_mem x h)
        · rintro (h | h)
          · exact Or.inl h
          · rcases List.mem_cons.mp h with he | h'
            · exact Or.inl (he ▸ hx)
            · exact Or.inr h'
      · rw [addOne_not_mem s x hx]
        simp only [List.mem_append, List.mem_singleton, List.mem_cons]
        tauto

theorem addUniverses_tracked (s : ServerState) (us : List Nat) (u : Nat)
    (h : u ∈ s.universes) :
    getKey (addUniverses s us).lastSeq u = getKey s.lastSeq u ∧
    (addUniverses s us).members.count u = s.members.count u := by
  induction us generalizing s with
  | nil => simp [addUniverses]
  | cons x xs ih =>
      simp only [addUniverses, List.foldl_cons] at ih ⊢
      by_cases hx : x ∈ s.universes
      · rw [addOne_mem s x hx]
        exact ih s h
      · have hxu : ¬x = u := fun he => hx (he ▸ h)
        rw [addOne_not_mem s x hx]
        have h' : u ∈ (addOne s x).universes := by
          rw [addOne_not_mem s x hx]
          exact List.mem_append_left _ h
        rw [addOne_not_mem s x hx] at h'
        have := ih _ h'
        rw [this.1, this.2]
        have hux2 : ¬u = x := fun he => hxu he.symm
        constructor
        · simp [getKey_setKey, hxu]
        · simp [List.count_append, List.count_cons, hux2]

theorem addUniverses_new (s : ServerState) (us : List Nat) (u : Nat)
    (h : u ∉ s.universes) (h2 : u ∈ us) :
    getKey (addUniverses s us).lastSeq u = some 0 ∧
    (addUniverses s us).members.count u = s.members.count u + 1 := by
  induction us generalizing s with
  | nil => simp at h2
  | cons x xs ih =>
      simp only [addUniverses, List.foldl_cons] at ih ⊢
      by_cases hx : x ∈ s.universes
      · have hux : ¬u = x := fun he => h (he ▸ hx)
        have h2' : u ∈ xs := by
          rcases List.mem_cons.mp h2 with he | h'
          · exact absurd he hux
          · exact h'
        rw [addOne_mem s x hx]
        exact ih s h h2'
      · by_cases hux : u = x
        · subst hux
          rw [addOne_not_mem s u hx]
          have htr : u ∈ (s.universes ++ [u]) := List.mem_append_right _ (by simp)
          have := addUniverses_tracked
            { s with universes := s.universes ++ [u],
                     lastSeq := setKey s.lastSeq u 0,
                     members := s.members ++ [u],
                     joinLog := s.joinLog ++ [(u, s.bound)] } xs u htr
          simp only [addUniverses] at this
          rw [this.1, this.2]
          constructor
          · simp [getKey_setKey]
          · simp [List.count_append, List.count_cons]
        · have h2' : u ∈ xs := by
            rcases List.mem_cons.mp h2 with he | h'
            · exact absurd he hux
            · exact h'
          rw [addOne_not_mem s x hx]
          have h' : u ∉ (s.universes ++ [x]) := by
            simp only [List.mem_append, List.mem_singleton]
            rintro (hm | hm)
            · exact h hm
            · exact hux hm
          have := ih
            { s with universes := s.universes ++ [x],
                     lastSeq := setKey s.lastSeq x 0,
                     members := s.members ++ [x],
                     joinLog := s.joinLog ++ [(x, s.bound)] } h' h2'
          rw [this.1, this.2]
          constructor
          · rfl
          · simp [List.count_append, List.count_cons, hux]

/-- Claim C4: addUniverses leaves universes that are already tracked
completely untouched (same sequence state, no further join), adds every
universe of the input that was not tracked with sequence state 0 and
exactly one join (later duplicates in the input hit the already-tracked
case), and the resulting tracked set is the union of the old one and the
input. -/
theorem C4_addUniverses (s : ServerState) (us : List Nat) (u : Nat) :
    (u ∈ (addUniverses s us).universes ↔ u ∈ s.universes ∨ u ∈ us) ∧
    (u ∈ s.universes →
      getKey (addUniverses s us).lastSeq u = getKey s.lastSeq u ∧
      (addUniverses s us).members.count u = s.members.count u) ∧
    (u ∉ s.universes → u ∈ us →
      getKey (addUniverses s us).lastSeq u = some 0 ∧
      (addUniverses s us).members.count u = s.members.count u + 1) :=
  ⟨addUniverses_mem s us u,
   fun h => addUniverses_tracked s us u h,
   fun h h2 => addUniverses_new s us u h h2⟩

/-- Witness for C4_addUniverses, at the scenario of the spec: from a
server with no universes, addUniverses([5, 5, 7]) gives universe 5
sequence state 0 and exactly one join despite the duplicate. -/
theorem C4_addUniverses_witness :
    getKey (addUniverses (constructServer (.obj ⟨.undef, none⟩) none)
        [5, 5, 7]).lastSeq 5 = some 0 ∧
    (addUniverses (constructServer (.obj ⟨.undef, none⟩) none)
        [5, 5, 7]).members.count 5
      = (constructServer (.obj ⟨.undef, none⟩) none).members.count 5 + 1 :=
  (C4_addUniverses (constructServer (.obj ⟨.undef, none⟩) none) [5, 5, 7] 5).2.2
    (by decide) (by decide)

/-! ## Claim C5 (dropUniverses removes, ignores untracked, add reinitializes) -/

/-- Claim C5: dropping a tracked universe (tracked set without duplicate
entries) removes it from the tracked set, deletes its sequence state,
issues the dropMembership call (and, when the joined multiset agrees
with the tracked list, the universe is no longer a member); dropping an
untracked universe is a complete no-op; and adding the universe back
right after the drop reinitializes its sequence state to 0 whatever
value it had before. -/
theorem C5_dropUniverses (s : ServerState) (u : Nat) :
    (u ∉ s.universes → dropUniverses s [u] = s) ∧
    (s.universes.Nodup → u ∈ s.universes →
      u ∉ (dropUniverses s [u]).universes ∧
      getKey (dropUniverses s [u]).lastSeq u = none ∧
      (dropUniverses s [u]).dropLog = s.dropLog ++ [u] ∧
      (s.members = s.universes → u ∉ (dropUniverses s [u]).members) ∧
      getKey (addUniverses (dropUniverses s [u]) [u]).lastSeq u = some 0) := by
  constructor
  · intro h
    simp [dropUniverses, dropOne, h]
  · intro hnd h
    have hdrop : dropUniverses s [u]
        = { s with universes := removeFirst s.universes u,
                   lastSeq := delKey s.lastSeq u,
                   members := removeFirst s.members u,
                   dropLog := s.dropLog ++ [u] } := by
      simp [dropUniverses, dropOne, h]
    rw [hdrop]
    refine ⟨not_mem_removeFirst hnd, by simp [getKey_delKey], rfl, ?_, ?_⟩
    · intro hm
      rw [hm]
      exact not_mem_removeFirst hnd
    · rw [show addUniverses
          { s with universes := removeFirst s.universes u,
                   lastSeq := delKey s.lastSeq u,
                   members := removeFirst s.members u,
                   dropLog := s.dropLog ++ [u] } [u]
        = addOne
          { s with universes := removeFirst s.universes u,
                   lastSeq := delKey s.lastSeq u,
                   members := removeFirst s.members u,
                   dropLog := s.dropLog ++ [u] } u from rfl]
      rw [addOne_not_mem _ u (not_mem_removeFirst hnd)]
      simp [getKey_setKey]

/-- Witness for C5_dropUniverses on the sample server tracking universe 1
at last-seen 10: drop removes everything and a re-add restarts at 0. -/
theorem C5_dropUniverses_witness :
    1 ∉ (dropUniverses sampleState [1]).universes ∧
    getKey (dropUniverses sampleState [1]).lastSeq 1 = none ∧
    (dropUniverses sampleState [1]).dropLog = sampleState.dropLog ++ [1] ∧
    (sampleState.members = sampleState.universes →
      1 ∉ (dropUniverses sampleState [1]).members) ∧
    getKey (addUniverses (dropUniverses sampleState [1]) [1]).lastSeq 1 = some 0 :=
  (C5_dropUniverses sampleState 1).2 (by decide) (by decide)

/-! ## Claim C2 (membership equals sequence-state keys) -/

theorem addOne_inv (s : ServerState) (u : Nat) (h : Inv s) : Inv (addOne s u) := by
  rcases h with ⟨hm, hnd, hk⟩
  by_cases hu : u ∈ s.universes
  · rw [addOne_mem s u hu]
    exact ⟨hm, hnd, hk⟩
  · rw [addOne_not_mem s u hu]
    refine ⟨by rw [hm], ?_, ?_⟩
    · refine List.nodup_append.mpr ⟨hnd, List.nodup_singleton u, ?_⟩
      intro a ha hb
      rw [List.mem_singleton] at hb
      exact hu (hb ▸ ha)
    · intro v
      rw [getKey_setKey]
      by_cases hv : u = v
      · subst hv
        simp
      · have hv2 : v ≠ u := fun he => hv he.symm
        simp [hv, hv2, hk v]

theorem dropOne_inv (s : ServerState) (u : Nat) (h : Inv s) : Inv (dropOne s u) := by
  rcases h with ⟨hm, hnd, hk⟩
  by_cases hu : u ∈ s.universes
  · have hdrop : dropOne s u
        = { s with universes := removeFirst s.universes u,
                   lastSeq := delKey s.lastSeq u,
                   members := removeFirst s.members u,
                   dropLog := s.dropLog ++ [u] } := by
      simp [dropOne, hu]
    rw [hdrop]
    refine ⟨by rw [hm], nodup_removeFirst hnd, ?_⟩
    intro v
    rw [getKey_delKey]
    by_cases hv : u = v
    · subst hv
      simp [not_mem_removeFirst hnd]
    · have hv2 : v ≠ u := fun he => hv he.symm
      simp [hv, mem_removeFirst_of_ne hv2, hk v]
  · simp [dropOne, hu]
    exact ⟨hm, hnd, hk⟩

theorem addUniverses_inv (us : List Nat) (s : ServerState) (h : Inv s) :
    Inv (addUniverses s us) := by
  induction us generalizing s with
  | nil => exact h
  | cons x xs ih =>
      simp only [addUniverses, List.foldl_cons] at ih ⊢
      exact ih _ (addOne_inv s x h)

theorem dropUniverses_inv (us : List Nat) (s : ServerState) (h : Inv s) :
    Inv (dropUniverses s us) := by
  induction us generalizing s with
  | nil => exact h
  | cons x xs ih =>
      simp only [dropUniverses, List.foldl_cons] at ih ⊢
      exact ih _ (dropOne_inv s x h)

theorem applyOps_inv (ops : List Op) (s : ServerState) (h : Inv s) :
    Inv (applyOps s ops) := by
  induction ops generalizing s with
  | nil => exact h
  | cons op rest ih =>
      simp only [applyOps, List.foldl_cons] at ih ⊢
      refine ih _ ?_
      cases op with
      | add us => exact addUniverses_inv us s h
      | drop us => exact dropUniverses_inv us s h

theorem inv_after_bind (L : List Nat) (cport aport : Option Nat) (hL : L.Nodup) :
    Inv (bindComplete (constructServer (.obj ⟨.list L, cport⟩) aport)) := by
  have hs0 : constructServer (.obj ⟨.list L, cport⟩) aport
      = { universes := L, lastSeq := [],
          port := jsOr cport (jsOr aport DEFAULT_PORT),
          objectForm := true, bound := false, closed := false,
          members := [], joinLog := [], dropLog := [] } := by
    simp [constructServer, takesObjectBranch, configOf, objectBranchUniverses,
      normalizeConfigUniverses]
  rw [hs0]
  simp only [bindComplete, if_true]
  refine ⟨?_, ?_, ?_⟩
  · rw [bindFoldObj_members, bindFoldObj_universes]
    simp
  · rw [bindFoldObj_universes]
    exact hL
  · intro v
    rw [bindFoldObj_getKey, bindFoldObj_universes]
    by_cases hv : v ∈ L <;> simp [hv, getKey]

/-- Claim C2, the claim as frozen, refuted at a concrete reachable state:
from an object-form construction with no universes, after bind completion
the delivery of one valid datagram for the untracked universe 7 creates
a last-seen entry for 7 (line 96 assigns into the map for whatever
universe the packet names) although 7 was never joined, so the joined
set and the key set of the sequence map differ in a reachable state. -/
theorem C2_counterexample :
    Reachable sampleDiscard
      (deliver sampleDiscard
        (bindComplete (constructServer (.obj ⟨.undef, none⟩) none)) ⟨7, 5, 0⟩).1 ∧
    ¬(7 ∈ (deliver sampleDiscard
        (bindComplete (constructServer (.obj ⟨.undef, none⟩) none)) ⟨7, 5, 0⟩).1.members ↔
      (getKey (deliver sampleDiscard
        (bindComplete (constructServer (.obj ⟨.undef, none⟩) none)) ⟨7, 5, 0⟩).1.lastSeq
        7).isSome) := by
  constructor
  · exact Reachable.step
      (Reachable.step (Reachable.construct (.obj ⟨.undef, none⟩) none)
        (Step.bind _))
      (Step.recv _ ⟨7, 5, 0⟩)
  · decide

/-- Claim C2, amended: the 1:1 correspondence between joined universes
and the keys of the tracked sequence map holds after an object-form
construction with a duplicate-free universe list, bind completion, and
any sequence of addUniverses/dropUniverses calls — but not over the full
reachable state space: delivery of a valid datagram for an untracked
universe creates a sequence-map key with no membership, and the
positional-form bind callback joins groups without creating sequence
state. -/
theorem C2_amended (L : List Nat) (cport aport : Option Nat) (ops : List Op)
    (u : Nat) (hL : L.Nodup) :
    u ∈ (applyOps (bindComplete
          (constructServer (.obj ⟨.list L, cport⟩) aport)) ops).members ↔
    (getKey (applyOps (bindComplete
          (constructServer (.obj ⟨.list L, cport⟩) aport)) ops).lastSeq u).isSome := by
  rcases applyOps_inv ops _ (inv_after_bind L cport aport hL) with ⟨hm, _hnd, hk⟩
  rw [hm]
  exact (hk u).symm

/-- Witness for C2_amended: start with universe 1, add universe 2, drop
universe 1, and check the correspondence at universe 2. -/
theorem C2_amended_witness :
    2 ∈ (applyOps (bindComplete
          (constructServer (.obj ⟨.list [1], none⟩) none)) [.add [2], .drop [1]]).members ↔
    (getKey (applyOps (bindComplete
          (constructServer (.obj ⟨.list [1], none⟩) none)) [.add [2], .drop [1]]).lastSeq
      2).isSome :=
  C2_amended [1] none none [.add [2], .drop [1]] 2 (by decide)

/-! ## Claim C10 (the constructor aliases the caller configuration) -/

theorem heapGet_heapSet_self (st : Store) (r : Nat) (v : List Nat)
    (h : r < st.length) : heapGet (heapSet st r v) r = v := by
  induction st generalizing r with
  | nil => simp at h
  | cons x xs ih =>
      cases r with
      | zero => simp [heapGet, heapSet]
      | succ r =>
          simp only [heapGet, heapSet, List.set_cons_succ, List.getD_cons_succ]
          exact ih r (Nat.lt_of_succ_lt_succ h)

theorem heapGet_append_self (st : Store) (v : List Nat) :
    heapGet (st ++ [v]) st.length = v := by
  induction st with
  | nil => simp [heapGet]
  | cons x xs ih =>
      simp only [List.cons_append, List.length_cons, heapGet, List.getD_cons_succ] at ih ⊢
      exact ih

/-- Claim C10: the configuration-object constructor takes no copy of the
caller data.  A single (non-array) universes value makes the constructor
replace the caller config universes property by a reference to a freshly
allocated one-element array; an array-valued universes property is taken
over by reference, the server holding exactly the reference the caller
holds, so that a later addUniverses (push) or dropUniverses (splice)
through the server reference is visible through the caller reference. -/
theorem C10_alias (st : Store) (r n u v : Nat) (hr : r < st.length)
    (hu : u ∉ heapGet st r) (hv : v ∈ heapGet st r) :
    (constructUniversesAlias st (.num n)).2.1 = .arrayRef st.length ∧
    (constructUniversesAlias st (.num n)).2.1 ≠ .num n ∧
    heapGet (constructUniversesAlias st (.num n)).1 st.length = [n] ∧
    (constructUniversesAlias st (.arrayRef r)).2.2 = r ∧
    (constructUniversesAlias st (.arrayRef r)).1 = st ∧
    heapGet (addUniversesAlias st r [u]) r = heapGet st r ++ [u] ∧
    heapGet (dropUniversesAlias st r [v]) r = removeFirst (heapGet st r) v := by
  refine ⟨rfl, ?_, heapGet_append_self st [n], rfl, rfl, ?_, ?_⟩
  · intro hc
    simp [constructUniversesAlias] at hc
  · simp [addUniversesAlias, addOneAlias, hu, heapGet_heapSet_self st r _ hr]
  · simp [dropUniversesAlias, dropOneAlias, hv, heapGet_heapSet_self st r _ hr]

/-- Witness for C10_alias: the caller array cell 0 holding universes 1
and 2, wrapping the single value 9, pushing 3 and splicing out 1. -/
theorem C10_alias_witness :
    (constructUniversesAlias [[1, 2]] (.num 9)).2.1 = .arrayRef 1 ∧
    (constructUniversesAlias [[1, 2]] (.num 9)).2.1 ≠ .num 9 ∧
    heapGet (constructUniversesAlias [[1, 2]] (.num 9)).1 1 = [9] ∧
    (constructUniversesAlias [[1, 2]] (.arrayRef 0)).2.2 = 0 ∧
    (constructUniversesAlias [[1, 2]] (.arrayRef 0)).1 = [[1, 2]] ∧
    heapGet (addUniversesAlias [[1, 2]] 0 [3]) 0 = heapGet [[1, 2]] 0 ++ [3] ∧
    heapGet (dropUniversesAlias [[1, 2]] 0 [1]) 0 = removeFirst (heapGet [[1, 2]] 0) 1 := by
  have h := C10_alias [[1, 2]] 0 9 3 1 (by decide) (by decide) (by decide)
  simpa using h

end E131
